import Mathlib

/-
Verification development for the znaniya_boost_bot repository.

The model below is a shallow embedding of the task-lifecycle code in
src/bot/main.py.  Python strings are modelled as Lean strings over their
character lists (ASCII whitespace; the traces exercised here are ASCII),
Python datetimes at minute precision as a record of numeric fields, and
the single-process system (database rows, APScheduler jobs, aiogram FSM
session, message deliveries) as an explicit state record with a step
function over an event alphabet.  Ghost fields (task id provenance on
jobs and deliveries, the description a task was created with, whether
the scheduled time was in the future at creation, counters of update
calls and sink errors) are annotations used only to state properties;
they never influence the dynamics.
-/

namespace ZB

/-! ## Python string helpers (str.rsplit, str.strip, slicing) -/

/-- ASCII whitespace as recognised by Python str.split and str.strip
(space, tab, newline, carriage return, vertical tab, form feed). -/
def isPySpace (c : Char) : Bool :=
  decide (c = ' ') || decide (c = '\t') || decide (c = '\n') ||
    decide (c = '\r') || decide (c.toNat = 11) || decide (c.toNat = 12)

def notWs (c : Char) : Bool := !(isPySpace c)

/-- Model of Python text.rsplit(maxsplit=2) with no separator: split off at
most two whitespace-runs from the right; the remainder (if nonempty) is kept
verbatim, trailing whitespace is discarded, and no empty parts are produced. -/
def pyRsplit2Data (cs : List Char) : List (List Char) :=
  let r0 := cs.reverse.dropWhile isPySpace
  if r0.isEmpty then []
  else
    let t2 := (r0.takeWhile notWs).reverse
    let r1 := (r0.dropWhile notWs).dropWhile isPySpace
    if r1.isEmpty then [t2]
    else
      let t1 := (r1.takeWhile notWs).reverse
      let r2 := (r1.dropWhile notWs).dropWhile isPySpace
      if r2.isEmpty then [t1, t2] else [r2.reverse, t1, t2]

/-- Model of Python str.strip(): remove leading and trailing whitespace. -/
def pyStripData (cs : List Char) : List Char :=
  ((cs.dropWhile isPySpace).reverse.dropWhile isPySpace).reverse

/-! ## Python datetime.strptime with format "%Y-%m-%d %H:%M"

CPython _strptime compiles that format to the regex
(\d\d\d\d)-(1[0-2]|0[1-9]|[1-9])-(3[01]|[12]\d|0[1-9]|[1-9])\s+
(2[0-3]|[0-1]\d|\d):([0-5]\d|\d) anchored at both ends, then validates the
calendar date by constructing datetime.date(year, month, day).  The parsers
below implement exactly those alternations; committing to the two-digit
alternative whenever it matches is equivalent to regex backtracking here
because every field is followed by a non-digit literal. -/

def digitVal (c : Char) : Nat := c.toNat - 48

def expectChar (c : Char) : List Char → Option (List Char)
  | x :: rest => if x = c then some rest else none
  | [] => none

/-- One or more whitespace characters, as the format blank (regex \s+). -/
def parseWs1 : List Char → Option (List Char)
  | x :: rest => if isPySpace x then some (rest.dropWhile isPySpace) else none
  | [] => none

/-- Exactly four digits (regex \d\d\d\d for %Y). -/
def parseYear : List Char → Option (Nat × List Char)
  | a :: b :: c :: d :: rest =>
    if a.isDigit && b.isDigit && c.isDigit && d.isDigit then
      some (digitVal a * 1000 + digitVal b * 100 + digitVal c * 10 + digitVal d, rest)
    else none
  | _ => none

/-- Month (regex alternatives for %m). -/
def parseMonth : List Char → Option (Nat × List Char)
  | a :: b :: rest =>
    if a.isDigit && b.isDigit &&
        ((decide (digitVal a = 1) && decide (digitVal b ≤ 2)) ||
         (decide (digitVal a = 0) && decide (1 ≤ digitVal b))) then
      some (digitVal a * 10 + digitVal b, rest)
    else if a.isDigit && decide (1 ≤ digitVal a) then some (digitVal a, b :: rest)
    else none
  | [a] => if a.isDigit && decide (1 ≤ digitVal a) then some (digitVal a, []) else none
  | [] => none

/-- Day of month (regex alternatives for %d). -/
def parseDay : List Char → Option (Nat × List Char)
  | a :: b :: rest =>
    if a.isDigit && b.isDigit &&
        ((decide (digitVal a = 3) && decide (digitVal b ≤ 1)) ||
         (decide (1 ≤ digitVal a) && decide (digitVal a ≤ 2)) ||
         (decide (digitVal a = 0) && decide (1 ≤ digitVal b))) then
      some (digitVal a * 10 + digitVal b, rest)
    else if a.isDigit && decide (1 ≤ digitVal a) then some (digitVal a, b :: rest)
    else none
  | [a] => if a.isDigit && decide (1 ≤ digitVal a) then some (digitVal a, []) else none
  | [] => none

/-- Hour (regex alternatives for %H). -/
def parseHour : List Char → Option (Nat × List Char)
  | a :: b :: rest =>
    if a.isDigit && b.isDigit &&
        ((decide (digitVal a = 2) && decide (digitVal b ≤ 3)) ||
         decide (digitVal a ≤ 1)) then
      some (digitVal a * 10 + digitVal b, rest)
    else if a.isDigit then some (digitVal a, b :: rest)
    else none
  | [a] => if a.isDigit then some (digitVal a, []) else none
  | [] => none

/-- Minute (regex alternatives for %M). -/
def parseMinute : List Char → Option (Nat × List Char)
  | a :: b :: rest =>
    if a.isDigit && b.isDigit && decide (digitVal a ≤ 5) then
      some (digitVal a * 10 + digitVal b, rest)
    else if a.isDigit then some (digitVal a, b :: rest)
    else none
  | [a] => if a.isDigit then some (digitVal a, []) else none
  | [] => none

structure DateTime where
  year : Nat
  month : Nat
  day : Nat
  hour : Nat
  minute : Nat
deriving DecidableEq

def isLeap (y : Nat) : Bool :=
  decide (y % 4 = 0) && (decide (y % 100 ≠ 0) || decide (y % 400 = 0))

def daysInMonth (y m : Nat) : Nat :=
  if m = 2 then (if isLeap y then 29 else 28)
  else if m = 4 || m = 6 || m = 9 || m = 11 then 30
  else 31

/-- Full model of datetime.strptime(s, "%Y-%m-%d %H:%M"): the anchored regex
match followed by the calendar validation done by datetime.date (which
rejects year 0 and day counts beyond the month length). -/
def strptimeChars (cs : List Char) : Option DateTime := do
  let (y, r1) ← parseYear cs
  let r2 ← expectChar '-' r1
  let (m, r3) ← parseMonth r2
  let r4 ← expectChar '-' r3
  let (d, r5) ← parseDay r4
  let r6 ← parseWs1 r5
  let (h, r7) ← parseHour r6
  let r8 ← expectChar ':' r7
  let (mi, r9) ← parseMinute r8
  if r9.isEmpty && decide (1 ≤ y) && decide (d ≤ daysInMonth y m) then
    some ⟨y, m, d, h, mi⟩
  else none

/-- Injection of a datetime into a single timeline number; with the field
bounds guaranteed by strptimeChars this is exactly the lexicographic
comparison Python uses on datetime values. -/
def DateTime.key (d : DateTime) : Nat :=
  d.year * 100000000 + d.month * 1000000 + d.day * 10000 + d.hour * 100 + d.minute

/-! ## Parsing an add-task message (process_task_details lines 143 to 154) -/

inductive AddError where
  | badFormat
  | badDatetime
deriving DecidableEq

instance {ε α : Type} [DecidableEq ε] [DecidableEq α] : DecidableEq (Except ε α) := fun x y =>
  match x, y with
  | .ok a, .ok b =>
    if h : a = b then isTrue (by rw [h]) else isFalse (by intro hc; cases hc; exact h rfl)
  | .error a, .error b =>
    if h : a = b then isTrue (by rw [h]) else isFalse (by intro hc; cases hc; exact h rfl)
  | .ok _, .error _ => isFalse (by intro hc; cases hc)
  | .error _, .ok _ => isFalse (by intro hc; cases hc)

/-- The last two whitespace-separated tokens joined with a single space:
datetime_str = " ".join(parts[-2:]). -/
def lastTwoJoinedData (text : String) : Option (List Char) :=
  match (pyRsplit2Data text.data).reverse with
  | b :: a :: _ => some (a ++ ' ' :: b)
  | _ => none

/-- The parsing fragment of process_task_details:
parts = message.text.rsplit(maxsplit=2); reject fewer than two parts;
datetime_str = " ".join(parts[-2:]); scheduled_time via strptime;
description = message.text[:-len(datetime_str)].strip(). -/
def parseAdd (text : String) : Except AddError (String × DateTime) :=
  match (pyRsplit2Data text.data).reverse with
  | b :: a :: _ =>
    let dtStr := a ++ ' ' :: b
    match strptimeChars dtStr with
    | none => .error .badDatetime
    | some dt =>
      .ok (⟨pyStripData (text.data.take (text.data.length - dtStr.length))⟩, dt)
  | _ => .error .badFormat

/-- Description the spec ascribes to an add-task text: everything preceding
the last two whitespace-separated tokens, trimmed of surrounding whitespace.
This definition follows the words of the spec and is compared against the
description computed by the code. -/
def specDescription (text : String) : Option String :=
  match pyRsplit2Data text.data with
  | [r, _, _] => some ⟨pyStripData r⟩
  | [_, _] => some ""
  | _ => none

/-! ## System state -/

/-- A row of the tasks table.  desc0 and futureAtCreation are ghost
annotations fixed at creation: the description the row was created with and
whether scheduled_time was strictly in the future at that moment. -/
structure Task where
  id : Nat
  user_id : Nat
  description : String
  scheduled_time : DateTime
  desc0 : String
  futureAtCreation : Bool
deriving DecidableEq

/-- A pending APScheduler job created by scheduler.add_job(send_reminder,
DateTrigger(run_date=scheduled_time), args=[user_id, description]).  The
args are frozen copies; tid is a ghost annotation recording which task row
the job was created for. -/
structure Job where
  tid : Nat
  user_id : Nat
  text : String
  fire_time : Nat
deriving DecidableEq

/-- A message actually handed to the chat transport.  tid is ghost
provenance. -/
structure Delivery where
  tid : Nat
  user_id : Nat
  text : String
deriving DecidableEq

/-- Global state: database rows, pending scheduler jobs, autoincrement
counter, current time on the DateTime.key timeline, the log of deliveries,
the ghost log of fired job provenances, ghost call counters, and the single
chat session FSM (waiting_for_details flag plus edit_task_id data). -/
structure SysState where
  tasks : List Task
  jobs : List Job
  nextId : Nat
  now : Nat
  delivered : List Delivery
  firedLog : List Nat
  updateCalls : Nat
  sinkErrors : Nat
  fsmWaiting : Bool
  editTaskId : Option Nat
deriving DecidableEq

/-! ## Database operations (lines 50 to 72) -/

def add_task_db (st : SysState) (uid : Nat) (description : String)
    (scheduled_time : DateTime) : SysState :=
  { st with
    tasks := st.tasks ++
      [{ id := st.nextId, user_id := uid, description := description,
         scheduled_time := scheduled_time, desc0 := description,
         futureAtCreation := decide (scheduled_time.key > st.now) }],
    nextId := st.nextId + 1 }

def get_tasks_db (st : SysState) (uid : Nat) : List Task :=
  st.tasks.filter (fun t => decide (t.user_id = uid))

def delete_task_db (st : SysState) (tid : Nat) : SysState :=
  { st with tasks := st.tasks.filter (fun t => decide (t.id ≠ tid)) }

def update_task_db (st : SysState) (tid : Nat) (new_description : String) : SysState :=
  { st with
    tasks := st.tasks.map (fun t =>
      if t.id = tid then { t with description := new_description } else t),
    updateCalls := st.updateCalls + 1 }

/-! ## Reminder delivery (send_reminder, lines 75 to 79) -/

def reminderText (description : String) : String :=
  "🔔 Напоминание: " ++ description

/-- send_reminder: attempt delivery; any transport exception is caught and
only logged (modelled by the sinkErrors counter), nothing else changes. -/
def send_reminder (st : SysState) (tid uid : Nat) (description : String)
    (sinkOk : Bool) : SysState :=
  if sinkOk then
    { st with delivered := st.delivered ++ [⟨tid, uid, reminderText description⟩] }
  else
    { st with sinkErrors := st.sinkErrors + 1 }

/-- scheduler.add_job with a DateTrigger (lines 161 to 166). -/
def scheduleReminder (st : SysState) (tid uid : Nat) (description : String)
    (k : Nat) : SysState :=
  { st with jobs := st.jobs ++ [⟨tid, uid, description, k⟩] }

/-! ## Handlers -/

inductive Outcome where
  | formatError
  | datetimeError
  | addedWithReminder
  | addedPast
  | ignored
deriving DecidableEq

def Outcome.isError : Outcome → Bool
  | .formatError => true
  | .datetimeError => true
  | _ => false

/-- process_task_details (lines 140 to 171): parse, store the row, schedule
a reminder only when the time is strictly in the future, then clear the FSM
state; on parse failure answer with an error and change nothing. -/
def process_task_details (st : SysState) (uid : Nat) (text : String) :
    SysState × Outcome :=
  match parseAdd text with
  | .error .badFormat => (st, .formatError)
  | .error .badDatetime => (st, .datetimeError)
  | .ok (description, dt) =>
    let tid := st.nextId
    let st1 := add_task_db st uid description dt
    if dt.key > st1.now then
      ({ scheduleReminder st1 tid uid description dt.key with
          fsmWaiting := false, editTaskId := none }, .addedWithReminder)
    else
      ({ st1 with fsmWaiting := false, editTaskId := none }, .addedPast)

/-- process_new_description (lines 204 to 212): if edit_task_id is set (and
truthy), update the row and clear the FSM state; otherwise do nothing. -/
def process_new_description (st : SysState) (text : String) : SysState :=
  match st.editTaskId with
  | some tid =>
    if tid = 0 then st
    else { update_task_db st tid text with fsmWaiting := false, editTaskId := none }
  | none => st

/-- aiogram Command("start") filter: the first whitespace-separated token of
the message text is the /start command. -/
def isStartCommand (text : String) : Bool :=
  decide ((text.data.dropWhile isPySpace).takeWhile notWs = ['/', 's', 't', 'a', 'r', 't'])

/-- Message dispatch in handler registration order: start_handler (line 95),
then process_task_details under AddTaskState.waiting_for_details (line 140),
then process_new_description under the same state (line 204).  aiogram runs
the first handler whose filters match, so the third branch is shadowed by
the second. -/
def handleMessage (st : SysState) (uid : Nat) (text : String) : SysState :=
  if isStartCommand text then st
  else if st.fsmWaiting then (process_task_details st uid text).1
  else if st.fsmWaiting then process_new_description st text
  else st

/-! ## Events and the step function -/

inductive Event where
  | cbAddTask
  | cbViewTasks
  | cbHelp
  | cbDeleteAsk (tid : Nat)
  | cbConfirmDelete (tid : Nat)
  | cbCancel
  | cbEdit (tid : Nat)
  | msgText (uid : Nat) (text : String)
  | tick (d : Nat)
  | fire (j : Job) (sinkOk : Bool)
  | dbUpdate (tid : Nat) (description : String)
deriving DecidableEq

/-- Events coming from the chat interface (button presses and messages), as
opposed to the passage of time, scheduler firings, and direct Task Store
calls. -/
def Event.isUserInteraction : Event → Bool
  | .tick _ => false
  | .fire _ _ => false
  | .dbUpdate _ _ => false
  | _ => true

/-- The scheduler fires a due pending job: the job is consumed and
send_reminder runs (delivery may fail; the failure is swallowed). -/
def fireJob (st : SysState) (j : Job) (sinkOk : Bool) : SysState :=
  if j ∈ st.jobs ∧ j.fire_time ≤ st.now then
    send_reminder
      { st with jobs := st.jobs.erase j, firedLog := st.firedLog ++ [j.tid] }
      j.tid j.user_id j.text sinkOk
  else st

def step (st : SysState) (e : Event) : SysState :=
  match e with
  | .cbAddTask => { st with fsmWaiting := true }
  | .cbViewTasks => st
  | .cbHelp => st
  | .cbDeleteAsk _ => st
  | .cbConfirmDelete tid => delete_task_db st tid
  | .cbCancel => st
  | .cbEdit tid => { st with editTaskId := some tid }
  | .msgText uid text => handleMessage st uid text
  | .tick d => { st with now := st.now + d }
  | .fire j sinkOk => fireJob st j sinkOk
  | .dbUpdate tid description => update_task_db st tid description

def initState : SysState :=
  { tasks := [], jobs := [], nextId := 1, now := 0, delivered := [],
    firedLog := [], updateCalls := 0, sinkErrors := 0,
    fsmWaiting := false, editTaskId := none }

def run (tr : List Event) : SysState := tr.foldl step initState

def Reachable (st : SysState) : Prop := ∃ tr, run tr = st

/-! ## Counting helpers -/

def jobCount (st : SysState) (tid : Nat) : Nat :=
  st.jobs.countP (fun j => decide (j.tid = tid))

def firedCount (st : SysState) (tid : Nat) : Nat :=
  st.firedLog.countP (fun x => decide (x = tid))

def delCount (st : SysState) (tid : Nat) : Nat :=
  st.delivered.countP (fun d => decide (d.tid = tid))

/-! ## List helper lemmas -/

theorem takeWhile_all {α} (p : α → Bool) (l : List α)
    (h : ∀ a ∈ l, p a = true) : l.takeWhile p = l := by
  induction l with
  | nil => rfl
  | cons x xs ih =>
    rw [List.takeWhile_cons, if_pos (h x (by simp)), ih (fun a ha => h a (by simp [ha]))]

theorem dropWhile_all {α} (p : α → Bool) (l : List α)
    (h : ∀ a ∈ l, p a = true) : l.dropWhile p = [] := by
  induction l with
  | nil => rfl
  | cons x xs ih =>
    rw [List.dropWhile_cons, if_pos (h x (by simp))]
    exact ih (fun a ha => h a (by simp [ha]))

theorem takeWhile_append_stop {α} (p : α → Bool) (l1 l2 : List α) (x : α)
    (h1 : ∀ a ∈ l1, p a = true) (hx : p x = false) :
    (l1 ++ x :: l2).takeWhile p = l1 := by
  induction l1 with
  | nil => simp [List.takeWhile_cons, hx]
  | cons y ys ih =>
    rw [List.cons_append, List.takeWhile_cons, if_pos (h1 y (by simp)),
      ih (fun a ha => h1 a (by simp [ha]))]

theorem dropWhile_append_stop {α} (p : α → Bool) (l1 l2 : List α) (x : α)
    (h1 : ∀ a ∈ l1, p a = true) (hx : p x = false) :
    (l1 ++ x :: l2).dropWhile p = x :: l2 := by
  induction l1 with
  | nil => simp [List.dropWhile_cons, hx]
  | cons y ys ih =>
    rw [List.cons_append, List.dropWhile_cons, if_pos (h1 y (by simp))]
    exact ih (fun a ha => h1 a (by simp [ha]))

theorem dropWhile_head_false {α} (p : α → Bool) (x : α) (l : List α)
    (hx : p x = false) : (x :: l).dropWhile p = x :: l := by
  rw [List.dropWhile_cons, hx]
  simp

theorem take_len_append {α} (l1 l2 : List α) : (l1 ++ l2).take l1.length = l1 := by
  induction l1 with
  | nil => rfl
  | cons x xs ih => simp [List.take_succ_cons, ih]

/-- Splitting a string of the shape token-space-token, both tokens nonempty
and whitespace-free, yields exactly the two tokens. -/
theorem pyRsplit2Data_pair (a b : List Char) (ha : a ≠ []) (hb : b ≠ [])
    (ha2 : ∀ c ∈ a, isPySpace c = false) (hb2 : ∀ c ∈ b, isPySpace c = false) :
    pyRsplit2Data (a ++ ' ' :: b) = [a, b] := by
  have hrevb : ∀ c ∈ b.reverse, notWs c = true := by
    intro c hc
    simp only [notWs, hb2 c (List.mem_reverse.mp hc)]
    rfl
  have hreva : ∀ c ∈ a.reverse, notWs c = true := by
    intro c hc
    simp only [notWs, ha2 c (List.mem_reverse.mp hc)]
    rfl
  have hrev : (a ++ ' ' :: b).reverse = b.reverse ++ ' ' :: a.reverse := by
    simp [List.reverse_append]
  have hsp : isPySpace ' ' = true := by decide
  have hnw : notWs ' ' = false := by decide
  obtain ⟨c0, t0, hb0⟩ : ∃ c0 t0, b.reverse = c0 :: t0 := by
    cases hbr : b.reverse with
    | nil => exact absurd (by simpa using hbr) hb
    | cons c0 t0 => exact ⟨c0, t0, rfl⟩
  have hc0 : isPySpace c0 = false := by
    have : c0 ∈ b.reverse := by rw [hb0]; simp
    exact hb2 c0 (List.mem_reverse.mp this)
  -- the initial dropWhile keeps everything
  have hdrop0 : (a ++ ' ' :: b).reverse.dropWhile isPySpace =
      b.reverse ++ ' ' :: a.reverse := by
    rw [hrev, hb0, List.cons_append]
    exact dropWhile_head_false _ _ _ hc0
  have htake2 : (b.reverse ++ ' ' :: a.reverse).takeWhile notWs = b.reverse :=
    takeWhile_append_stop _ _ _ _ hrevb hnw
  have hdrop2 : (b.reverse ++ ' ' :: a.reverse).dropWhile notWs = ' ' :: a.reverse :=
    dropWhile_append_stop _ _ _ _ hrevb hnw
  obtain ⟨d0, s0, ha0⟩ : ∃ d0 s0, a.reverse = d0 :: s0 := by
    cases har : a.reverse with
    | nil => exact absurd (by simpa using har) ha
    | cons d0 s0 => exact ⟨d0, s0, rfl⟩
  have hd0 : isPySpace d0 = false := by
    have : d0 ∈ a.reverse := by rw [ha0]; simp
    exact ha2 d0 (List.mem_reverse.mp this)
  have hdropsp : (' ' :: a.reverse).dropWhile isPySpace = a.reverse := by
    rw [List.dropWhile_cons, hsp]
    simp only [if_true]
    rw [ha0]
    exact dropWhile_head_false _ _ _ hd0
  have htake1 : a.reverse.takeWhile notWs = a.reverse := takeWhile_all _ _ hreva
  have hdrop1 : a.reverse.dropWhile notWs = [] := dropWhile_all _ _ hreva
  unfold pyRsplit2Data
  simp only [hdrop0, htake2, hdrop2, hdropsp, htake1, hdrop1, List.dropWhile_nil,
    List.reverse_reverse]
  rw [hb0, List.cons_append, ha0]
  simp

/-- Counting through erasing a present element. -/
theorem countP_erase_mem {α} [DecidableEq α] (l : List α) (x : α) (h : x ∈ l)
    (p : α → Bool) :
    l.countP p = (if p x then 1 else 0) + (l.erase x).countP p := by
  have hp := List.perm_cons_erase h
  rw [hp.countP_eq p, List.countP_cons]
  split <;> omega

theorem countP_eq_zero_of_all {α} (p : α → Bool) (l : List α)
    (h : ∀ a ∈ l, p a = false) : l.countP p = 0 := by
  rw [List.countP_eq_zero]
  intro a ha
  simp [h a ha]

theorem countP_append_single_zero {α} (p : α → Bool) (l : List α) (x : α)
    (hl : l.countP p = 0) (hx : p x = false) : (l ++ [x]).countP p = 0 := by
  rw [List.countP_append, hl, List.countP_cons, List.countP_nil, hx]
  simp

/-! ## The system invariant

Invariants sustained by every reachable state: task ids and job
provenances stay below the autoincrement counter, each task id obtains at
most one scheduler job over its whole life (with the fired log as the
consumed half of the ledger), a task row accounts for exactly one
pending-or-fired job when its time was in the future at creation and none
otherwise, deliveries never outnumber firings, and a pending job carries
the description its task was created with. -/

structure Inv (st : SysState) : Prop where
  idHi : ∀ t ∈ st.tasks, t.id < st.nextId
  jobHi : ∀ j ∈ st.jobs, j.tid < st.nextId
  firedHi : ∀ x ∈ st.firedLog, x < st.nextId
  ledger : ∀ t ∈ st.tasks,
    jobCount st t.id + firedCount st t.id = (if t.futureAtCreation then 1 else 0)
  jobOnce : ∀ tid, jobCount st tid + firedCount st tid ≤ 1
  delLe : ∀ tid, delCount st tid ≤ firedCount st tid
  jobText : ∀ j ∈ st.jobs, ∀ t ∈ st.tasks, t.id = j.tid → j.text = t.desc0

theorem inv_initState : Inv initState := by
  constructor <;> simp [initState, jobCount, firedCount, delCount]

/-- Invariance is preserved by any state change that keeps the five core
components (rows, jobs, fired log, deliveries, autoincrement counter). -/
theorem inv_of_parts (st st' : SysState) (h : Inv st)
    (ht : st'.tasks = st.tasks) (hj : st'.jobs = st.jobs)
    (hf : st'.firedLog = st.firedLog) (hd : st'.delivered = st.delivered)
    (hn : st'.nextId = st.nextId) : Inv st' := by
  constructor
  · intro t htm
    rw [ht] at htm
    rw [hn]
    exact h.idHi t htm
  · intro j hjm
    rw [hj] at hjm
    rw [hn]
    exact h.jobHi j hjm
  · intro x hx
    rw [hf] at hx
    rw [hn]
    exact h.firedHi x hx
  · intro t htm
    rw [ht] at htm
    have := h.ledger t htm
    unfold jobCount firedCount at this ⊢
    rw [hj, hf]
    exact this
  · intro tid
    have := h.jobOnce tid
    unfold jobCount firedCount at this ⊢
    rw [hj, hf]
    exact this
  · intro tid
    have := h.delLe tid
    unfold delCount firedCount at this ⊢
    rw [hd, hf]
    exact this
  · intro j hjm t htm heq
    rw [hj] at hjm
    rw [ht] at htm
    exact h.jobText j hjm t htm heq

theorem inv_delete_task_db (st : SysState) (tid : Nat) (h : Inv st) :
    Inv (delete_task_db st tid) := by
  have hsub : ∀ t ∈ (delete_task_db st tid).tasks, t ∈ st.tasks := by
    intro t htm
    exact (List.mem_filter.mp htm).1
  constructor
  · intro t htm
    exact h.idHi t (hsub t htm)
  · exact h.jobHi
  · exact h.firedHi
  · intro t htm
    exact h.ledger t (hsub t htm)
  · exact h.jobOnce
  · exact h.delLe
  · intro j hjm t htm heq
    exact h.jobText j hjm t (hsub t htm) heq

theorem inv_update_task_db (st : SysState) (tid : Nat) (d : String) (h : Inv st) :
    Inv (update_task_db st tid d) := by
  have hsub : ∀ t ∈ (update_task_db st tid d).tasks,
      ∃ t0 ∈ st.tasks, t.id = t0.id ∧ t.futureAtCreation = t0.futureAtCreation ∧
        t.desc0 = t0.desc0 := by
    intro t htm
    obtain ⟨t0, ht0, heq⟩ := List.mem_map.mp htm
    refine ⟨t0, ht0, ?_, ?_, ?_⟩ <;> rw [← heq] <;>
      by_cases hc : t0.id = tid <;> simp [hc]
  constructor
  · intro t htm
    obtain ⟨t0, ht0, hid, _, _⟩ := hsub t htm
    rw [hid]
    exact h.idHi t0 ht0
  · exact h.jobHi
  · exact h.firedHi
  · intro t htm
    obtain ⟨t0, ht0, hid, hfut, _⟩ := hsub t htm
    have := h.ledger t0 ht0
    unfold jobCount firedCount at this ⊢
    rw [hid, hfut]
    exact this
  · exact h.jobOnce
  · exact h.delLe
  · intro j hjm t htm heq
    obtain ⟨t0, ht0, hid, _, hdesc⟩ := hsub t htm
    rw [hdesc]
    exact h.jobText j hjm t0 ht0 (by rw [← hid]; exact heq)

theorem inv_process_task_details (st : SysState) (uid : Nat) (text : String)
    (h : Inv st) : Inv (process_task_details st uid text).1 := by
  unfold process_task_details
  cases hp : parseAdd text with
  | error e => cases e <;> exact h
  | ok p =>
    obtain ⟨description, dt⟩ := p
    simp only
    -- the task row appended by add_task_db
    set T : Task :=
      { id := st.nextId, user_id := uid, description := description,
        scheduled_time := dt, desc0 := description,
        futureAtCreation := decide (dt.key > st.now) } with hT
    have hjobs0 : ∀ tid, tid = st.nextId →
        st.jobs.countP (fun j => decide (j.tid = tid)) = 0 := by
      intro tid htid
      apply countP_eq_zero_of_all
      intro j hjm
      have := h.jobHi j hjm
      simp [htid]
      omega
    have hfired0 : ∀ tid, tid = st.nextId →
        st.firedLog.countP (fun x => decide (x = tid)) = 0 := by
      intro tid htid
      apply countP_eq_zero_of_all
      intro x hx
      have := h.firedHi x hx
      simp [htid]
      omega
    split
    case isTrue hfut =>
      -- future time: row appended and a job scheduled
      constructor
      · intro t htm
        simp only [scheduleReminder, add_task_db] at htm ⊢
        rcases List.mem_append.mp htm with hold | hnew
        · exact Nat.lt_succ_of_lt (h.idHi t hold)
        · simp at hnew
          rw [hnew]
          exact Nat.lt_succ_self _
      · intro j hjm
        simp only [scheduleReminder, add_task_db] at hjm ⊢
        rcases List.mem_append.mp hjm with hold | hnew
        · exact Nat.lt_succ_of_lt (h.jobHi j hold)
        · simp at hnew
          rw [hnew]
          exact Nat.lt_succ_self _
      · intro x hx
        simp only [scheduleReminder, add_task_db] at hx ⊢
        exact Nat.lt_succ_of_lt (h.firedHi x hx)
      · intro t htm
        simp only [scheduleReminder, add_task_db] at htm
        unfold jobCount firedCount
        simp only [scheduleReminder, add_task_db, List.countP_append]
        rcases List.mem_append.mp htm with hold | hnew
        · have hne : st.nextId ≠ t.id := by
            have := h.idHi t hold
            omega
          have := h.ledger t hold
          unfold jobCount firedCount at this
          simp [hne]
          omega
        · simp at hnew
          rw [hnew]
          have hfut2 : st.now < dt.key := by simpa [add_task_db] using hfut
          simp [hjobs0 st.nextId rfl, hfired0 st.nextId rfl, hfut2]
      · intro tid
        unfold jobCount firedCount
        simp only [scheduleReminder, add_task_db, List.countP_append]
        by_cases hc : st.nextId = tid
        · simp [hc, hjobs0 tid hc.symm, hfired0 tid hc.symm]
        · have := h.jobOnce tid
          unfold jobCount firedCount at this
          simp [hc]
          omega
      · intro tid
        have := h.delLe tid
        unfold delCount firedCount at this ⊢
        simp only [scheduleReminder, add_task_db]
        exact this
      · intro j hjm t htm heq
        simp only [scheduleReminder, add_task_db] at hjm htm
        rcases List.mem_append.mp hjm with hjold | hjnew <;>
          rcases List.mem_append.mp htm with htold | htnew
        · exact h.jobText j hjold t htold heq
        · simp at htnew
          have := h.jobHi j hjold
          rw [htnew] at heq
          simp only [hT] at heq
          omega
        · simp at hjnew
          have := h.idHi t htold
          rw [hjnew] at heq
          simp only at heq
          omega
        · simp at hjnew htnew
          rw [hjnew, htnew]
    case isFalse hfut =>
      -- past time: only the row is appended
      constructor
      · intro t htm
        simp only [add_task_db] at htm ⊢
        rcases List.mem_append.mp htm with hold | hnew
        · exact Nat.lt_succ_of_lt (h.idHi t hold)
        · simp at hnew
          rw [hnew]
          exact Nat.lt_succ_self _
      · intro j hjm
        simp only [add_task_db] at hjm ⊢
        exact Nat.lt_succ_of_lt (h.jobHi j hjm)
      · intro x hx
        simp only [add_task_db] at hx ⊢
        exact Nat.lt_succ_of_lt (h.firedHi x hx)
      · intro t htm
        simp only [add_task_db] at htm
        unfold jobCount firedCount
        simp only [add_task_db]
        rcases List.mem_append.mp htm with hold | hnew
        · have := h.ledger t hold
          unfold jobCount firedCount at this
          exact this
        · simp at hnew
          rw [hnew]
          have hfut2 : ¬ st.now < dt.key := by
            intro hc
            exact hfut (by simpa [add_task_db] using hc)
          simp [hjobs0 st.nextId rfl, hfired0 st.nextId rfl, hfut2]
      · intro tid
        have := h.jobOnce tid
        unfold jobCount firedCount at this ⊢
        simp only [add_task_db]
        exact this
      · intro tid
        have := h.delLe tid
        unfold delCount firedCount at this ⊢
        simp only [add_task_db]
        exact this
      · intro j hjm t htm heq
        simp only [add_task_db] at hjm htm
        rcases List.mem_append.mp htm with htold | htnew
        · exact h.jobText j hjm t htold heq
        · simp at htnew
          have := h.jobHi j hjm
          rw [htnew] at heq
          simp only [hT] at heq
          omega

theorem inv_process_new_description (st : SysState) (text : String) (h : Inv st) :
    Inv (process_new_description st text) := by
  unfold process_new_description
  cases he : st.editTaskId with
  | none => exact h
  | some tid =>
    simp only
    split
    · exact h
    · exact inv_of_parts _ _ (inv_update_task_db st tid text h) rfl rfl rfl rfl rfl

theorem inv_handleMessage (st : SysState) (uid : Nat) (text : String) (h : Inv st) :
    Inv (handleMessage st uid text) := by
  unfold handleMessage
  split
  · exact h
  · split
    · exact inv_process_task_details st uid text h
    · exact h

theorem inv_fireJob (st : SysState) (j : Job) (sinkOk : Bool) (h : Inv st) :
    Inv (fireJob st j sinkOk) := by
  unfold fireJob
  split
  case isFalse => exact h
  case isTrue hg =>
    obtain ⟨hmem, _⟩ := hg
    have herase := countP_erase_mem st.jobs j hmem
    have hjob_erase : ∀ j2 ∈ st.jobs.erase j, j2 ∈ st.jobs :=
      fun j2 hj2 => List.mem_of_mem_erase hj2
    unfold send_reminder
    have hcore : ∀ (st' : SysState),
        st'.tasks = st.tasks → st'.jobs = st.jobs.erase j →
        st'.firedLog = st.firedLog ++ [j.tid] → st'.nextId = st.nextId →
        (st'.delivered = st.delivered ∨
          st'.delivered = st.delivered ++ [⟨j.tid, j.user_id, reminderText j.text⟩]) →
        Inv st' := by
      intro st' ht hj2 hf hn hd
      constructor
      · intro t htm
        rw [ht] at htm
        rw [hn]
        exact h.idHi t htm
      · intro j2 hj2m
        rw [hj2] at hj2m
        rw [hn]
        exact h.jobHi j2 (hjob_erase j2 hj2m)
      · intro x hx
        rw [hf] at hx
        rw [hn]
        rcases List.mem_append.mp hx with hold | hnew
        · exact h.firedHi x hold
        · simp at hnew
          rw [hnew]
          exact h.jobHi j hmem
      · intro t htm
        rw [ht] at htm
        have := h.ledger t htm
        have he := herase (fun j2 => decide (j2.tid = t.id))
        unfold jobCount firedCount at this ⊢
        rw [hj2, hf]
        simp only [List.countP_append]
        simp only [List.countP_cons, List.countP_nil]
        by_cases hc : j.tid = t.id <;> simp [hc] at he ⊢ <;> omega
      · intro tid
        have := h.jobOnce tid
        have he := herase (fun j2 => decide (j2.tid = tid))
        unfold jobCount firedCount at this ⊢
        rw [hj2, hf]
        simp only [List.countP_append, List.countP_cons, List.countP_nil]
        by_cases hc : j.tid = tid <;> simp [hc] at he ⊢ <;> omega
      · intro tid
        have := h.delLe tid
        unfold delCount firedCount at this ⊢
        rw [hf]
        simp only [List.countP_append, List.countP_cons, List.countP_nil]
        rcases hd with hd | hd <;> rw [hd]
        · omega
        · simp only [List.countP_append, List.countP_cons, List.countP_nil]
          by_cases hc : j.tid = tid <;> simp [hc] <;> omega
      · intro j2 hj2m t htm heq
        rw [hj2] at hj2m
        rw [ht] at htm
        exact h.jobText j2 (hjob_erase j2 hj2m) t htm heq
    cases sinkOk with
    | true =>
      simp only [if_pos rfl]
      exact hcore _ rfl rfl rfl rfl (Or.inr rfl)
    | false =>
      simp only [if_neg Bool.false_ne_true]
      exact hcore _ rfl rfl rfl rfl (Or.inl rfl)

theorem inv_step (st : SysState) (e : Event) (h : Inv st) : Inv (step st e) := by
  cases e with
  | cbAddTask => exact inv_of_parts _ _ h rfl rfl rfl rfl rfl
  | cbViewTasks => exact h
  | cbHelp => exact h
  | cbDeleteAsk tid => exact h
  | cbConfirmDelete tid => exact inv_delete_task_db st tid h
  | cbCancel => exact h
  | cbEdit tid => exact inv_of_parts _ _ h rfl rfl rfl rfl rfl
  | msgText uid text => exact inv_handleMessage st uid text h
  | tick d => exact inv_of_parts _ _ h rfl rfl rfl rfl rfl
  | fire j sinkOk => exact inv_fireJob st j sinkOk h
  | dbUpdate tid d => exact inv_update_task_db st tid d h

theorem inv_foldl (tr : List Event) (st : SysState) (h : Inv st) :
    Inv (tr.foldl step st) := by
  induction tr generalizing st with
  | nil => exact h
  | cons e tr ih => exact ih (step st e) (inv_step st e h)

theorem reachable_inv (st : SysState) (h : Reachable st) : Inv st := by
  obtain ⟨tr, htr⟩ := h
  rw [← htr]
  exact inv_foldl tr initState inv_initState

/-! ## A task id that never obtained a scheduler job never gets a delivery -/

structure NeverFires (st : SysState) (tid : Nat) : Prop where
  lt : tid < st.nextId
  jz : jobCount st tid = 0
  fz : firedCount st tid = 0
  dz : delCount st tid = 0

theorem neverFires_of_parts (st st' : SysState) (tid : Nat) (h : NeverFires st tid)
    (hj : st'.jobs = st.jobs) (hf : st'.firedLog = st.firedLog)
    (hd : st'.delivered = st.delivered) (hn : st.nextId ≤ st'.nextId) :
    NeverFires st' tid := by
  constructor
  · have := h.lt
    omega
  · have := h.jz
    unfold jobCount at this ⊢
    rw [hj]
    exact this
  · have := h.fz
    unfold firedCount at this ⊢
    rw [hf]
    exact this
  · have := h.dz
    unfold delCount at this ⊢
    rw [hd]
    exact this

theorem neverFires_process_task_details (st : SysState) (uid : Nat) (text : String)
    (tid : Nat) (h : NeverFires st tid) :
    NeverFires (process_task_details st uid text).1 tid := by
  unfold process_task_details
  cases hp : parseAdd text with
  | error e => cases e <;> exact h
  | ok p =>
    obtain ⟨d, dt⟩ := p
    simp only
    have hne : decide (st.nextId = tid) = false := by
      have := h.lt
      simp
      omega
    split
    · constructor
      · have := h.lt
        show tid < st.nextId + 1
        omega
      · have := h.jz
        unfold jobCount at this ⊢
        exact countP_append_single_zero _ _ _ this hne
      · have := h.fz
        unfold firedCount at this ⊢
        exact this
      · have := h.dz
        unfold delCount at this ⊢
        exact this
    · refine neverFires_of_parts st _ tid h rfl rfl rfl ?_
      simp only [add_task_db]
      omega

theorem neverFires_fireJob (st : SysState) (j : Job) (sinkOk : Bool) (tid : Nat)
    (h : NeverFires st tid) : NeverFires (fireJob st j sinkOk) tid := by
  unfold fireJob
  split
  case isFalse => exact h
  case isTrue hg =>
    obtain ⟨hmem, _⟩ := hg
    have hne : decide (j.tid = tid) = false := by
      by_contra hc
      have hc2 : j.tid = tid := by
        simpa using hc
      have hpos : 0 < st.jobs.countP (fun j2 => decide (j2.tid = tid)) :=
        List.countP_pos_iff.mpr ⟨j, hmem, by simp [hc2]⟩
      have := h.jz
      unfold jobCount at this
      omega
    have herase := countP_erase_mem st.jobs j hmem (fun j2 => decide (j2.tid = tid))
    rw [hne] at herase
    simp at herase
    have hjz := h.jz
    unfold jobCount at hjz
    unfold send_reminder
    cases sinkOk with
    | true =>
      simp only [if_pos rfl]
      constructor
      · exact h.lt
      · show (st.jobs.erase j).countP (fun j2 => decide (j2.tid = tid)) = 0
        omega
      · have := h.fz
        unfold firedCount at this ⊢
        exact countP_append_single_zero _ _ _ this hne
      · have := h.dz
        unfold delCount at this ⊢
        exact countP_append_single_zero _ _ _ this hne
    | false =>
      simp only [if_neg Bool.false_ne_true]
      constructor
      · exact h.lt
      · show (st.jobs.erase j).countP (fun j2 => decide (j2.tid = tid)) = 0
        omega
      · have := h.fz
        unfold firedCount at this ⊢
        exact countP_append_single_zero _ _ _ this hne
      · have := h.dz
        unfold delCount at this ⊢
        exact this

theorem neverFires_step (st : SysState) (e : Event) (tid : Nat)
    (h : NeverFires st tid) : NeverFires (step st e) tid := by
  cases e with
  | cbAddTask => exact neverFires_of_parts st _ tid h rfl rfl rfl (le_refl _)
  | cbViewTasks => exact h
  | cbHelp => exact h
  | cbDeleteAsk t2 => exact h
  | cbConfirmDelete t2 => exact neverFires_of_parts st _ tid h rfl rfl rfl (le_refl _)
  | cbCancel => exact h
  | cbEdit t2 => exact neverFires_of_parts st _ tid h rfl rfl rfl (le_refl _)
  | msgText uid text =>
    show NeverFires (handleMessage st uid text) tid
    unfold handleMessage
    split
    · exact h
    · split
      · exact neverFires_process_task_details st uid text tid h
      · exact h
  | tick d => exact neverFires_of_parts st _ tid h rfl rfl rfl (le_refl _)
  | fire j sinkOk => exact neverFires_fireJob st j sinkOk tid h
  | dbUpdate t2 d => exact neverFires_of_parts st _ tid h rfl rfl rfl (le_refl _)

theorem neverFires_foldl (tr : List Event) (st : SysState) (tid : Nat)
    (h : NeverFires st tid) : NeverFires (tr.foldl step st) tid := by
  induction tr generalizing st with
  | nil => exact h
  | cons e tr ih => exact ih (step st e) (neverFires_step st e tid h)

/-! ## Chat interactions never change a stored description -/

structure Pristine (st : SysState) : Prop where
  uz : st.updateCalls = 0
  dz : ∀ t ∈ st.tasks, t.description = t.desc0

theorem pristine_step (st : SysState) (e : Event)
    (hu : e.isUserInteraction = true) (h : Pristine st) : Pristine (step st e) := by
  cases e with
  | cbAddTask => exact ⟨h.uz, h.dz⟩
  | cbViewTasks => exact h
  | cbHelp => exact h
  | cbDeleteAsk t2 => exact h
  | cbConfirmDelete t2 =>
    refine ⟨h.uz, ?_⟩
    intro t htm
    exact h.dz t (List.mem_filter.mp htm).1
  | cbCancel => exact h
  | cbEdit t2 => exact ⟨h.uz, h.dz⟩
  | msgText uid text =>
    show Pristine (handleMessage st uid text)
    unfold handleMessage
    split
    · exact h
    · split
      · unfold process_task_details
        cases hp : parseAdd text with
        | error e2 => cases e2 <;> exact h
        | ok p =>
          obtain ⟨d, dt⟩ := p
          simp only
          split
          · refine ⟨h.uz, ?_⟩
            intro t htm
            simp only [scheduleReminder, add_task_db] at htm
            rcases List.mem_append.mp htm with hold | hnew
            · exact h.dz t hold
            · simp at hnew
              rw [hnew]
          · refine ⟨h.uz, ?_⟩
            intro t htm
            simp only [add_task_db] at htm
            rcases List.mem_append.mp htm with hold | hnew
            · exact h.dz t hold
            · simp at hnew
              rw [hnew]
      · exact h
  | tick d => exact ⟨h.uz, h.dz⟩
  | fire j sinkOk => exact absurd hu (by simp [Event.isUserInteraction])
  | dbUpdate t2 d => exact absurd hu (by simp [Event.isUserInteraction])

theorem pristine_foldl (tr : List Event) (st : SysState)
    (hu : ∀ e ∈ tr, e.isUserInteraction = true) (h : Pristine st) :
    Pristine (tr.foldl step st) := by
  induction tr generalizing st with
  | nil => exact h
  | cons e tr ih =>
    exact ih (step st e) (fun e2 he2 => hu e2 (by simp [he2]))
      (pristine_step st e (hu e (by simp)) h)

/-! ## Bridge lemmas for the parsing claims -/

theorem map_eq_self_of_eq {α} (f : α → α) (l : List α) (h : ∀ a ∈ l, f a = a) :
    l.map f = l := by
  induction l with
  | nil => rfl
  | cons x xs ih => simp [h x (by simp), ih (fun a ha => h a (by simp [ha]))]

/-- Once the token split is known, parseAdd is determined by strptime on the
joined last two tokens and the length-based slice of the input. -/
theorem parseAdd_eq (text : String) (a b : List Char) (rest : List (List Char))
    (hrev : (pyRsplit2Data text.data).reverse = b :: a :: rest) :
    parseAdd text =
      (match strptimeChars (a ++ ' ' :: b) with
      | none => .error .badDatetime
      | some dt =>
        .ok (⟨pyStripData (text.data.take
          (text.data.length - (a ++ ' ' :: b).length))⟩, dt)) := by
  unfold parseAdd
  rw [hrev]

/-! ## Claim C4 -/

/-- C4 fails as stated: on the input below (two spaces between the date and
time tokens) the code computes the description by slicing off the length of
the space-normalised datetime string, yielding "a 2", whereas everything
preceding the last two tokens trimmed is "a". -/
theorem claim_C4_counterexample :
    parseAdd ("a 2025-03-01  09:30") = .ok ("a 2", ⟨2025, 3, 1, 9, 30⟩) ∧
      specDescription ("a 2025-03-01  09:30") = some "a" ∧
      ("a 2" : String) ≠ ("a" : String) := by
  refine ⟨by decide, by decide, by decide⟩

/-- C4 (amended): parsing takes the last two whitespace-separated tokens,
requires their single-space join to parse under the %Y-%m-%d %H:%M format
(which also accepts unpadded month, day, hour and minute), and computes the
description by deleting the last len(token1) + 1 + len(token2) characters of
the input and trimming whitespace; this equals everything preceding the two
tokens whenever the input ends exactly with token1, a single space, and
token2.  In particular "Buy milk 2025-03-01 09:30" yields description
"Buy milk" and scheduled time 2025-03-01 09:30. -/
theorem claim_C4_amended :
    parseAdd ("Buy milk 2025-03-01 09:30") =
        .ok ("Buy milk", ⟨2025, 3, 1, 9, 30⟩) ∧
      ∀ (text pre : String) (a b : List Char) (rest : List (List Char))
        (dt : DateTime),
        (pyRsplit2Data text.data).reverse = b :: a :: rest →
        strptimeChars (a ++ ' ' :: b) = some dt →
        text.data = pre.data ++ (a ++ ' ' :: b) →
        parseAdd text = .ok (⟨pyStripData pre.data⟩, dt) := by
  constructor
  · decide
  · intro text pre a b rest dt hrev hsp htext
    rw [parseAdd_eq text a b rest hrev, hsp]
    have hlen : text.data.length - (a ++ ' ' :: b).length = pre.data.length := by
      rw [htext, List.length_append]
      omega
    rw [hlen, htext, take_len_append]

/-- Witness for the amended C4 on the spec example input. -/
theorem claim_C4_witness :
    parseAdd ("Buy milk 2025-03-01 09:30") =
      .ok (⟨pyStripData (("Buy milk " : String).data)⟩, ⟨2025, 3, 1, 9, 30⟩) :=
  claim_C4_amended.2 ("Buy milk 2025-03-01 09:30") ("Buy milk ")
    (("2025-03-01" : String).data) (("09:30" : String).data)
    [("Buy milk" : String).data] ⟨2025, 3, 1, 9, 30⟩
    (by decide) (by decide) (by decide)

/-! ## Claim C10 -/

/-- C10 fails as stated: the input below consists of exactly two
whitespace-separated tokens and nothing else and its entire text parses as a
%Y-%m-%d %H:%M timestamp (the format blank matches any whitespace run), the
add succeeds without a validation error, yet the stored description is "0",
not the empty string, because the slice removes only the length of the
single-space join. -/
theorem claim_C10_counterexample :
    strptimeChars (("0001-01-01  00:01" : String).data) = some ⟨1, 1, 1, 0, 1⟩ ∧
      pyRsplit2Data (("0001-01-01  00:01" : String).data) =
        [("0001-01-01" : String).data, ("00:01" : String).data] ∧
      parseAdd ("0001-01-01  00:01") = .ok ("0", ⟨1, 1, 1, 0, 1⟩) ∧
      ("0" : String) ≠ ("" : String) := by
  refine ⟨by decide, by decide, by decide, by decide⟩

/-- C10 (amended): for every add-task input that is exactly a date token, a
single space, and a time token whose join parses under %Y-%m-%d %H:%M, the
add succeeds without any validation error, the stored task has the empty
description, and the outcome schedules a reminder exactly when the time is
strictly in the future. -/
theorem claim_C10_amended (a b : String) (dt : DateTime) (st : SysState) (uid : Nat)
    (ha : a.data ≠ []) (hb : b.data ≠ [])
    (ha2 : ∀ c ∈ a.data, isPySpace c = false)
    (hb2 : ∀ c ∈ b.data, isPySpace c = false)
    (hsp : strptimeChars (a.data ++ ' ' :: b.data) = some dt) :
    parseAdd ⟨a.data ++ ' ' :: b.data⟩ = .ok ("", dt) ∧
      (process_task_details st uid ⟨a.data ++ ' ' :: b.data⟩).2 =
        (if dt.key > st.now then Outcome.addedWithReminder else Outcome.addedPast) ∧
      Outcome.isError (process_task_details st uid ⟨a.data ++ ' ' :: b.data⟩).2 = false ∧
      (process_task_details st uid ⟨a.data ++ ' ' :: b.data⟩).1.tasks =
        st.tasks ++ [{ id := st.nextId, user_id := uid, description := "",
                       scheduled_time := dt, desc0 := "",
                       futureAtCreation := decide (dt.key > st.now) }] := by
  have hpair : pyRsplit2Data (a.data ++ ' ' :: b.data) = [a.data, b.data] :=
    pyRsplit2Data_pair a.data b.data ha hb ha2 hb2
  have hrev : (pyRsplit2Data ((⟨a.data ++ ' ' :: b.data⟩ : String)).data).reverse =
      b.data :: a.data :: [] := by
    rw [show ((⟨a.data ++ ' ' :: b.data⟩ : String)).data = a.data ++ ' ' :: b.data from rfl,
      hpair]
    rfl
  have hpa : parseAdd ⟨a.data ++ ' ' :: b.data⟩ = .ok ("", dt) := by
    rw [parseAdd_eq _ a.data b.data [] hrev, hsp]
    have hzero : ((⟨a.data ++ ' ' :: b.data⟩ : String)).data.length -
        (a.data ++ ' ' :: b.data).length = 0 := by
      rw [show ((⟨a.data ++ ' ' :: b.data⟩ : String)).data = a.data ++ ' ' :: b.data from rfl]
      omega
    rw [hzero, List.take_zero]
    rfl
  refine ⟨hpa, ?_, ?_, ?_⟩ <;> unfold process_task_details <;> rw [hpa] <;>
    by_cases hf : dt.key > st.now
  · rw [if_pos hf]
    simp only
    rw [if_pos (show dt.key > (add_task_db st uid ("" : String) dt).now from hf)]
  · rw [if_neg hf]
    simp only
    rw [if_neg (show ¬ dt.key > (add_task_db st uid ("" : String) dt).now from hf)]
  · simp only
    rw [if_pos (show dt.key > (add_task_db st uid ("" : String) dt).now from hf)]
    rfl
  · simp only
    rw [if_neg (show ¬ dt.key > (add_task_db st uid ("" : String) dt).now from hf)]
    rfl
  · simp only
    rw [if_pos (show dt.key > (add_task_db st uid ("" : String) dt).now from hf)]
    rfl
  · simp only
    rw [if_neg (show ¬ dt.key > (add_task_db st uid ("" : String) dt).now from hf)]
    rfl

/-- Witness for the amended C10 on a canonical single-space timestamp. -/
theorem claim_C10_witness :
    parseAdd ⟨(("0001-01-01" : String)).data ++ ' ' :: (("00:01" : String)).data⟩ =
      .ok ("", ⟨1, 1, 1, 0, 1⟩) :=
  (claim_C10_amended ("0001-01-01") ("00:01") ⟨1, 1, 1, 0, 1⟩ initState 7
    (by decide) (by decide) (by decide) (by decide) (by decide)).1

/-! ## Claim C5 -/

/-- C5: every add-task input that fails to parse (fewer than two tokens, or
the joined last two tokens rejected by strptime) surfaces an error outcome
to the caller and leaves the whole state unchanged: no task row is stored
and no scheduler entry is created. -/
theorem claim_C5 (st : SysState) (uid : Nat) (text : String) (err : AddError)
    (hw : st.fsmWaiting = true) (hns : isStartCommand text = false)
    (hp : parseAdd text = .error err) :
    step st (.msgText uid text) = st ∧
      Outcome.isError (process_task_details st uid text).2 = true ∧
      (process_task_details st uid text).1 = st := by
  have hpt : (process_task_details st uid text).1 = st ∧
      Outcome.isError (process_task_details st uid text).2 = true := by
    unfold process_task_details
    rw [hp]
    cases err <;> exact ⟨rfl, rfl⟩
  refine ⟨?_, hpt.2, hpt.1⟩
  show handleMessage st uid text = st
  unfold handleMessage
  rw [hns, hw]
  simp only [if_neg Bool.false_ne_true, if_pos rfl]
  exact hpt.1

/-- Witness for C5 on the spec example "Buy milk tomorrow". -/
theorem claim_C5_witness :
    step (run [Event.cbAddTask]) (.msgText 7 ("Buy milk tomorrow")) =
        run [Event.cbAddTask] ∧
      Outcome.isError
        (process_task_details (run [Event.cbAddTask]) 7 ("Buy milk tomorrow")).2 = true ∧
      (process_task_details (run [Event.cbAddTask]) 7 ("Buy milk tomorrow")).1 =
        run [Event.cbAddTask] :=
  claim_C5 (run [Event.cbAddTask]) 7 ("Buy milk tomorrow") .badDatetime
    (by decide) (by decide) (by decide)

/-! ## Claim C7 -/

/-- C7: deleting or updating a task id that is not present in the Task
Store is an idempotent no-op: the total functions return normally (no fatal
error is modelled as totality), deletion leaves the state identical, and
update leaves every task row unchanged. -/
theorem claim_C7 (st : SysState) (tid : Nat) (d : String)
    (h : ∀ t ∈ st.tasks, t.id ≠ tid) :
    delete_task_db st tid = st ∧
      (update_task_db st tid d).tasks = st.tasks ∧
      step st (.cbConfirmDelete tid) = st := by
  have hdel : st.tasks.filter (fun t => decide (t.id ≠ tid)) = st.tasks := by
    apply List.filter_eq_self.mpr
    intro t ht
    simp [h t ht]
  have hmap : st.tasks.map (fun t =>
      if t.id = tid then { t with description := d } else t) = st.tasks := by
    apply map_eq_self_of_eq
    intro t ht
    simp [h t ht]
  have h1 : delete_task_db st tid = st := by
    unfold delete_task_db
    rw [hdel]
  refine ⟨h1, ?_, h1⟩
  show st.tasks.map (fun t =>
      if t.id = tid then { t with description := d } else t) = st.tasks
  exact hmap

/-- Witness for C7: deleting and updating the absent id 99. -/
theorem claim_C7_witness :
    delete_task_db (run [Event.cbAddTask, Event.msgText 7 ("milk 0001-01-01 00:01")]) 99 =
        run [Event.cbAddTask, Event.msgText 7 ("milk 0001-01-01 00:01")] ∧
      (update_task_db (run [Event.cbAddTask, Event.msgText 7 ("milk 0001-01-01 00:01")])
          99 ("bread")).tasks =
        (run [Event.cbAddTask, Event.msgText 7 ("milk 0001-01-01 00:01")]).tasks ∧
      step (run [Event.cbAddTask, Event.msgText 7 ("milk 0001-01-01 00:01")])
          (.cbConfirmDelete 99) =
        run [Event.cbAddTask, Event.msgText 7 ("milk 0001-01-01 00:01")] :=
  claim_C7 (run [Event.cbAddTask, Event.msgText 7 ("milk 0001-01-01 00:01")]) 99
    ("bread") (by decide)

/-! ## Claim C8 -/

/-- C8: when delivery fails at fire time, send_reminder swallows the
exception: the failure is recorded in the log only, the task rows and the
delivery history are untouched, exactly the fired job is consumed, and
every other pending job survives. -/
theorem claim_C8 (st : SysState) (j : Job)
    (hmem : j ∈ st.jobs) (hdue : j.fire_time ≤ st.now) :
    (fireJob st j false).tasks = st.tasks ∧
      (fireJob st j false).delivered = st.delivered ∧
      (fireJob st j false).jobs = st.jobs.erase j ∧
      (fireJob st j false).sinkErrors = st.sinkErrors + 1 ∧
      (∀ j2 ∈ st.jobs, j2 ≠ j → j2 ∈ (fireJob st j false).jobs) := by
  have hred : fireJob st j false =
      { st with jobs := st.jobs.erase j, firedLog := st.firedLog ++ [j.tid],
                sinkErrors := st.sinkErrors + 1 } := by
    unfold fireJob
    rw [if_pos ⟨hmem, hdue⟩]
    unfold send_reminder
    rw [if_neg Bool.false_ne_true]
  rw [hred]
  refine ⟨rfl, rfl, rfl, rfl, ?_⟩
  intro j2 hj2 hne
  show j2 ∈ st.jobs.erase j
  exact (List.mem_erase_of_ne hne).mpr hj2

/-- Witness for C8 on a reachable state with one due job. -/
theorem claim_C8_witness :
    (fireJob (run [Event.cbAddTask, Event.msgText 7 ("milk 0001-01-01 00:01"),
          Event.tick 200000000]) ⟨1, 7, "milk", 101010001⟩ false).tasks =
        (run [Event.cbAddTask, Event.msgText 7 ("milk 0001-01-01 00:01"),
          Event.tick 200000000]).tasks ∧
      (fireJob (run [Event.cbAddTask, Event.msgText 7 ("milk 0001-01-01 00:01"),
          Event.tick 200000000]) ⟨1, 7, "milk", 101010001⟩ false).delivered =
        (run [Event.cbAddTask, Event.msgText 7 ("milk 0001-01-01 00:01"),
          Event.tick 200000000]).delivered ∧
      (fireJob (run [Event.cbAddTask, Event.msgText 7 ("milk 0001-01-01 00:01"),
          Event.tick 200000000]) ⟨1, 7, "milk", 101010001⟩ false).jobs =
        (run [Event.cbAddTask, Event.msgText 7 ("milk 0001-01-01 00:01"),
          Event.tick 200000000]).jobs.erase ⟨1, 7, "milk", 101010001⟩ ∧
      (fireJob (run [Event.cbAddTask, Event.msgText 7 ("milk 0001-01-01 00:01"),
          Event.tick 200000000]) ⟨1, 7, "milk", 101010001⟩ false).sinkErrors =
        (run [Event.cbAddTask, Event.msgText 7 ("milk 0001-01-01 00:01"),
          Event.tick 200000000]).sinkErrors + 1 ∧
      (∀ j2 ∈ (run [Event.cbAddTask, Event.msgText 7 ("milk 0001-01-01 00:01"),
          Event.tick 200000000]).jobs, j2 ≠ ⟨1, 7, "milk", 101010001⟩ →
        j2 ∈ (fireJob (run [Event.cbAddTask, Event.msgText 7 ("milk 0001-01-01 00:01"),
          Event.tick 200000000]) ⟨1, 7, "milk", 101010001⟩ false).jobs) :=
  claim_C8 (run [Event.cbAddTask, Event.msgText 7 ("milk 0001-01-01 00:01"),
    Event.tick 200000000]) ⟨1, 7, "milk", 101010001⟩ (by decide) (by decide)

/-! ## Claim C1 -/

/-- C1 fails as stated: scheduler.add_job freezes the description in the job
args at schedule time.  In the trace below the task is created as "milk",
its row is updated to "bread" before the fire time, yet the delivered
reminder still says "milk", not the description current at fire time. -/
theorem claim_C1_counterexample :
    (run [Event.cbAddTask, Event.msgText 7 ("milk 0001-01-01 00:01"),
        Event.dbUpdate 1 ("bread"), Event.tick 200000000,
        Event.fire ⟨1, 7, "milk", 101010001⟩ true]).delivered =
      [⟨1, 7, reminderText ("milk")⟩] ∧
    (run [Event.cbAddTask, Event.msgText 7 ("milk 0001-01-01 00:01"),
        Event.dbUpdate 1 ("bread"), Event.tick 200000000,
        Event.fire ⟨1, 7, "milk", 101010001⟩ true]).tasks.map Task.description =
      [("bread" : String)] ∧
    reminderText ("milk") ≠ reminderText ("bread") := by
  refine ⟨by decide, by decide, by decide⟩

/-- C1 (amended): the reminder delivered at fire time contains the
description captured at schedule time, which is the description the task
row was created with; a description updated after scheduling is not
re-read at fire time. -/
theorem claim_C1_amended (st : SysState) (j : Job) (t : Task)
    (hst : Reachable st) (hj : j ∈ st.jobs) (ht : t ∈ st.tasks)
    (hid : t.id = j.tid) (hdue : j.fire_time ≤ st.now) :
    j.text = t.desc0 ∧
      (fireJob st j true).delivered =
        st.delivered ++ [⟨j.tid, j.user_id, reminderText t.desc0⟩] := by
  have hinv := reachable_inv st hst
  have htext := hinv.jobText j hj t ht hid
  refine ⟨htext, ?_⟩
  unfold fireJob
  rw [if_pos ⟨hj, hdue⟩]
  unfold send_reminder
  rw [if_pos rfl, htext]

/-- Witness for the amended C1 on a reachable state with one due job. -/
theorem claim_C1_witness :
    (⟨1, 7, "milk", 101010001⟩ : Job).text =
        (⟨1, 7, "milk", ⟨1, 1, 1, 0, 1⟩, "milk", true⟩ : Task).desc0 ∧
      (fireJob (run [Event.cbAddTask, Event.msgText 7 ("milk 0001-01-01 00:01"),
          Event.tick 200000000]) ⟨1, 7, "milk", 101010001⟩ true).delivered =
        (run [Event.cbAddTask, Event.msgText 7 ("milk 0001-01-01 00:01"),
          Event.tick 200000000]).delivered ++ [⟨1, 7, reminderText ("milk")⟩] :=
  claim_C1_amended (run [Event.cbAddTask, Event.msgText 7 ("milk 0001-01-01 00:01"),
      Event.tick 200000000]) ⟨1, 7, "milk", 101010001⟩
    ⟨1, 7, "milk", ⟨1, 1, 1, 0, 1⟩, "milk", true⟩
    ⟨[Event.cbAddTask, Event.msgText 7 ("milk 0001-01-01 00:01"),
      Event.tick 200000000], rfl⟩
    (by decide) (by decide) (by decide) (by decide)

/-! ## Claim C2 -/

/-- C2 fails as stated: delete_task_db only removes the database row and
never touches the scheduler, so in the trace below the delete completes
strictly before the fire event begins (the row is already gone) and yet
one reminder delivery for the deleted task still occurs. -/
theorem claim_C2_counterexample :
    (run [Event.cbAddTask, Event.msgText 7 ("milk 0001-01-01 00:01"),
        Event.cbConfirmDelete 1]).tasks = [] ∧
      delCount (run [Event.cbAddTask, Event.msgText 7 ("milk 0001-01-01 00:01"),
        Event.cbConfirmDelete 1, Event.tick 200000000,
        Event.fire ⟨1, 7, "milk", 101010001⟩ true]) 1 = 1 := by
  refine ⟨by decide, by decide⟩

/-- C2 (amended): deleting a task removes its row but does not cancel any
pending scheduler entry (the jobs are untouched by delete), so a reminder
for a deleted task can still be delivered; in every reachable state each
task receives at most one delivery, so there is no duplicate delivery
either way. -/
theorem claim_C2_amended (st : SysState) (tid : Nat) (h : Reachable st) :
    (step st (.cbConfirmDelete tid)).jobs = st.jobs ∧ delCount st tid ≤ 1 := by
  have hinv := reachable_inv st h
  refine ⟨rfl, ?_⟩
  have h1 := hinv.delLe tid
  have h2 := hinv.jobOnce tid
  omega

/-- Witness for the amended C2 after a delete-then-fire trace. -/
theorem claim_C2_witness :
    (step (run [Event.cbAddTask, Event.msgText 7 ("milk 0001-01-01 00:01"),
        Event.cbConfirmDelete 1, Event.tick 200000000,
        Event.fire ⟨1, 7, "milk", 101010001⟩ true]) (.cbConfirmDelete 1)).jobs =
      (run [Event.cbAddTask, Event.msgText 7 ("milk 0001-01-01 00:01"),
        Event.cbConfirmDelete 1, Event.tick 200000000,
        Event.fire ⟨1, 7, "milk", 101010001⟩ true]).jobs ∧
    delCount (run [Event.cbAddTask, Event.msgText 7 ("milk 0001-01-01 00:01"),
        Event.cbConfirmDelete 1, Event.tick 200000000,
        Event.fire ⟨1, 7, "milk", 101010001⟩ true]) 1 ≤ 1 :=
  claim_C2_amended (run [Event.cbAddTask, Event.msgText 7 ("milk 0001-01-01 00:01"),
      Event.cbConfirmDelete 1, Event.tick 200000000,
      Event.fire ⟨1, 7, "milk", 101010001⟩ true]) 1
    ⟨[Event.cbAddTask, Event.msgText 7 ("milk 0001-01-01 00:01"),
      Event.cbConfirmDelete 1, Event.tick 200000000,
      Event.fire ⟨1, 7, "milk", 101010001⟩ true], rfl⟩

/-! ## Claim C6 -/

/-- C6 fails as stated: after the reminder fires, the one-shot job is
consumed, so a task row whose scheduled_time was strictly in the future at
creation no longer has a pending scheduler entry, refuting the claimed
if-and-only-if in that reachable state. -/
theorem claim_C6_counterexample :
    (run [Event.cbAddTask, Event.msgText 7 ("milk 0001-01-01 00:01"),
        Event.tick 200000000, Event.fire ⟨1, 7, "milk", 101010001⟩ true]).tasks.map
        (fun t => (t.id, t.futureAtCreation)) = [(1, true)] ∧
      jobCount (run [Event.cbAddTask, Event.msgText 7 ("milk 0001-01-01 00:01"),
        Event.tick 200000000, Event.fire ⟨1, 7, "milk", 101010001⟩ true]) 1 = 0 ∧
      ¬ (∀ t ∈ (run [Event.cbAddTask, Event.msgText 7 ("milk 0001-01-01 00:01"),
          Event.tick 200000000, Event.fire ⟨1, 7, "milk", 101010001⟩ true]).tasks,
        (jobCount (run [Event.cbAddTask, Event.msgText 7 ("milk 0001-01-01 00:01"),
          Event.tick 200000000, Event.fire ⟨1, 7, "milk", 101010001⟩ true]) t.id = 1 ↔
          t.futureAtCreation = true)) := by
  refine ⟨by decide, by decide, by decide⟩

/-- C6 (amended): in every reachable state each task id has at most one
pending scheduler entry, and a task row has a pending entry exactly when
its scheduled_time was strictly in the future at creation and its reminder
has not yet fired. -/
theorem claim_C6_amended (st : SysState) (h : Reachable st) :
    (∀ tid, jobCount st tid ≤ 1) ∧
      (∀ t ∈ st.tasks, (jobCount st t.id = 1 ↔
        (t.futureAtCreation = true ∧ firedCount st t.id = 0))) := by
  have hinv := reachable_inv st h
  constructor
  · intro tid
    have := hinv.jobOnce tid
    omega
  · intro t ht
    have hl := hinv.ledger t ht
    constructor
    · intro h1
      cases hfu : t.futureAtCreation with
      | false =>
        rw [hfu] at hl
        simp at hl
        omega
      | true =>
        rw [hfu] at hl
        simp at hl
        exact ⟨rfl, by omega⟩
    · rintro ⟨h1, h2⟩
      rw [h1] at hl
      simp at hl
      omega

/-- Witness for the amended C6 on a reachable state with a pending job. -/
theorem claim_C6_witness :
    jobCount (run [Event.cbAddTask, Event.msgText 7 ("milk 0001-01-01 00:01")]) 5 ≤ 1 :=
  (claim_C6_amended (run [Event.cbAddTask, Event.msgText 7 ("milk 0001-01-01 00:01")])
    ⟨[Event.cbAddTask, Event.msgText 7 ("milk 0001-01-01 00:01")], rfl⟩).1 5

/-! ## Claim C9 -/

/-- C9: pressing the edit button only stores edit_task_id in the session
data and leaves the rest of the state (in particular the
waiting_for_details flag) unchanged, and because the new-description
handler is registered under the same FSM state behind the add-task handler,
no sequence of chat interactions ever invokes update_task_db or changes the
stored description of any task away from the description it was created
with. -/
theorem claim_C9 :
    (∀ (st : SysState) (tid : Nat),
        step st (.cbEdit tid) = { st with editTaskId := some tid }) ∧
      (∀ tr : List Event, (∀ e ∈ tr, e.isUserInteraction = true) →
        (run tr).updateCalls = 0 ∧ ∀ t ∈ (run tr).tasks, t.description = t.desc0) := by
  constructor
  · intro st tid
    rfl
  · intro tr hu
    have hp := pristine_foldl tr initState hu ⟨rfl, by intro t ht; cases ht⟩
    exact ⟨hp.uz, hp.dz⟩

/-- Witness for C9: a trace that presses edit and then sends a new
description still performs zero update calls. -/
theorem claim_C9_witness :
    (run [Event.cbAddTask, Event.cbEdit 3, Event.msgText 7 ("new text")]).updateCalls = 0 :=
  (claim_C9.2 [Event.cbAddTask, Event.cbEdit 3, Event.msgText 7 ("new text")]
    (by decide)).1

/-! ## Claim C3 -/

/-- C3: a validated add-request whose scheduled_time is not strictly in the
future succeeds with the informational past-time outcome (not an error),
stores the row (which then appears in the list query for that user),
creates no scheduler entry, and no reminder for that task id is ever
delivered in any continuation of the run. -/
theorem claim_C3 (st : SysState) (uid : Nat) (text : String) (d : String)
    (dt : DateTime) (hreach : Reachable st) (hw : st.fsmWaiting = true)
    (hns : isStartCommand text = false) (hp : parseAdd text = .ok (d, dt))
    (hpast : ¬ dt.key > st.now) :
    (process_task_details st uid text).2 = Outcome.addedPast ∧
      Outcome.isError (process_task_details st uid text).2 = false ∧
      step st (.msgText uid text) = (process_task_details st uid text).1 ∧
      (process_task_details st uid text).1.tasks = st.tasks ++
        [{ id := st.nextId, user_id := uid, description := d, scheduled_time := dt,
           desc0 := d, futureAtCreation := false }] ∧
      ({ id := st.nextId, user_id := uid, description := d, scheduled_time := dt,
         desc0 := d, futureAtCreation := false } : Task) ∈
        get_tasks_db (process_task_details st uid text).1 uid ∧
      (process_task_details st uid text).1.jobs = st.jobs ∧
      (∀ tr : List Event,
        delCount (tr.foldl step (step st (.msgText uid text))) st.nextId = 0) := by
  have hinv := reachable_inv st hreach
  have hdec : decide (dt.key > st.now) = false := decide_eq_false hpast
  have hpt : process_task_details st uid text =
      ({ tasks := st.tasks ++
            [{ id := st.nextId, user_id := uid, description := d, scheduled_time := dt,
               desc0 := d, futureAtCreation := decide (dt.key > st.now) }],
          jobs := st.jobs, nextId := st.nextId + 1, now := st.now,
          delivered := st.delivered, firedLog := st.firedLog,
          updateCalls := st.updateCalls, sinkErrors := st.sinkErrors,
          fsmWaiting := false, editTaskId := none },
        Outcome.addedPast) := by
    unfold process_task_details
    rw [hp]
    simp only
    rw [if_neg (show ¬ dt.key > (add_task_db st uid d dt).now from hpast)]
    rfl
  have hstep : step st (.msgText uid text) = (process_task_details st uid text).1 := by
    show handleMessage st uid text = _
    unfold handleMessage
    rw [hns, hw]
    simp
  have htasks : (process_task_details st uid text).1.tasks = st.tasks ++
      [{ id := st.nextId, user_id := uid, description := d, scheduled_time := dt,
         desc0 := d, futureAtCreation := false }] := by
    rw [hpt]
    rw [show (decide (dt.key > st.now)) = false from hdec]
  have hjobs : (process_task_details st uid text).1.jobs = st.jobs := by
    rw [hpt]
  refine ⟨by rw [hpt], by rw [hpt]; rfl, hstep, htasks, ?_, hjobs, ?_⟩
  · unfold get_tasks_db
    apply List.mem_filter.mpr
    constructor
    · rw [htasks]
      exact List.mem_append.mpr (Or.inr (by simp))
    · simp
  · intro tr
    have hnf : NeverFires (step st (.msgText uid text)) st.nextId := by
      constructor
      · rw [hstep, hpt]
        show st.nextId < st.nextId + 1
        omega
      · unfold jobCount
        rw [hstep, hjobs]
        apply countP_eq_zero_of_all
        intro j hjm
        have := hinv.jobHi j hjm
        simp
        omega
      · unfold firedCount
        rw [hstep, hpt]
        show st.firedLog.countP _ = 0
        apply countP_eq_zero_of_all
        intro x hx
        have := hinv.firedHi x hx
        simp
        omega
      · unfold delCount
        rw [hstep, hpt]
        show st.delivered.countP _ = 0
        have h1 := hinv.delLe st.nextId
        have h2 : firedCount st st.nextId = 0 := by
          unfold firedCount
          apply countP_eq_zero_of_all
          intro x hx
          have := hinv.firedHi x hx
          simp
          omega
        unfold delCount firedCount at h1 h2
        omega
    exact (neverFires_foldl tr (step st (.msgText uid text)) st.nextId hnf).dz

/-- Witness for C3: adding a task whose time is already past in a state
where the clock has advanced beyond it; the reminder count for the new id
stays zero along a continuation containing a matching fire attempt. -/
theorem claim_C3_witness :
    (process_task_details (run [Event.tick 200000000, Event.cbAddTask]) 7
        ("milk 0001-01-01 00:01")).2 = Outcome.addedPast ∧
      delCount ([Event.tick 5, Event.fire ⟨1, 7, "milk", 101010001⟩ true].foldl step
        (step (run [Event.tick 200000000, Event.cbAddTask])
          (.msgText 7 ("milk 0001-01-01 00:01")))) 1 = 0 := by
  have h := claim_C3 (run [Event.tick 200000000, Event.cbAddTask]) 7
    ("milk 0001-01-01 00:01") ("milk") ⟨1, 1, 1, 0, 1⟩
    ⟨[Event.tick 200000000, Event.cbAddTask], rfl⟩
    (by decide) (by decide) (by decide) (by decide)
  exact ⟨h.1, h.2.2.2.2.2.2 [Event.tick 5, Event.fire ⟨1, 7, "milk", 101010001⟩ true]⟩

end ZB
